import Mathlib

/-!
Verification of the real-time presence and broadcast layer of the
cyberplace backend.  The definitions below are a shallow embedding of
`src/ws/config.js` (class `WebSocketManager`) and of the message / meme
services in `src/services` (`MessageService.sendToUser`,
`MessageService.formatMessage`, `MemeService.checkAndBroadcastTrendingMeme`).

Modelling conventions:
* JavaScript `Map` objects become association lists with `getA` / `setA` /
  `delA`; `setA` removes any previous binding of the key, so keys stay
  distinct by construction and `List.length` coincides with `Map.size`.
* JavaScript `Set` objects (room membership) become duplicate-free lists,
  extended with append-if-absent exactly as `Set.add` appends in insertion
  order.
* Socket identifiers are natural numbers; usernames are strings;
  timestamps are natural numbers.
* `socket.emit` / `io.emit` / `socket.to(room).emit` calls are recorded in
  an output list of `WSEvent` values.
* `previousSocket.disconnect(true)` in `removeUserFromPreviousSocket`
  synchronously fires the `disconnect` handler, as socket.io does on a
  server-initiated disconnect; this is embedded by invoking
  `handleDisconnection` at that point.
* Numeric counters of `connectionMetrics` are integers.
-/

/-- Association list lookup, mirroring JavaScript `Map.get`. -/
def getA {α β : Type} [DecidableEq α] (k : α) : List (α × β) → Option β
  | [] => none
  | (k₂, v) :: rest => if k = k₂ then some v else getA k rest

/-- Removal of every binding of a key, used by `setA` and `delA`. -/
def eraseA {α β : Type} [DecidableEq α] (k : α) : List (α × β) → List (α × β)
  | [] => []
  | (k₂, v) :: rest => if k₂ = k then eraseA k rest else (k₂, v) :: eraseA k rest

/-- Association list update, mirroring JavaScript `Map.set`. -/
def setA {α β : Type} [DecidableEq α] (k : α) (v : β) (m : List (α × β)) :
    List (α × β) :=
  (k, v) :: eraseA k m

/-- Association list deletion, mirroring JavaScript `Map.delete`. -/
def delA {α β : Type} [DecidableEq α] (k : α) (m : List (α × β)) :
    List (α × β) :=
  eraseA k m

/-- Membership test, mirroring JavaScript `Map.has`. -/
def hasA {α β : Type} [DecidableEq α] (k : α) (m : List (α × β)) : Bool :=
  (getA k m).isSome

/-- The `userData` record stored for an authenticated user: the caller
supplied metadata spread together with the `connectedAt` and `lastSeen`
timestamps added by `handleAuthentication`. -/
structure UserData where
  meta : List (String × String)
  connectedAt : Nat
  lastSeen : Nat
  deriving DecidableEq

/-- The value stored in `connectedUsers`: `{ socketId, userData }`. -/
structure UserInfo where
  socketId : Nat
  userData : UserData
  deriving DecidableEq

/-- Events emitted by the manager.  Each constructor records one
`socket.emit`, `io.emit`, `socket.to(room).emit` or forced
`socket.disconnect(true)` call together with its routing information. -/
inductive WSEvent where
  | authError (sid : Nat)
  | authenticated (sid : Nat) (username : String) (connectedCount : Nat)
  | pong (sid : Nat)
  | roomJoined (sid : Nat) (room : String) (users : List String)
  | roomError (sid : Nat)
  | roomLeft (sid : Nat) (room : String)
  | userJoinedRoom (room : String) (username : String)
  | userLeftRoom (room : String) (username : String)
  | userStatus (username : String) (status : String)
  | forcedDisconnect (sid : Nat)
  deriving DecidableEq

/-- State of the `WebSocketManager` singleton together with the set of
live transport connections (`io.sockets.sockets`) and the per-socket
`socket.username` property. -/
structure WSState where
  connectedUsers : List (String × UserInfo)
  userSockets : List (Nat × String)
  rooms : List (String × List String)
  alive : List Nat
  socketUsername : List (Nat × String)
  totalConnections : Int
  currentConnections : Int
  totalDisconnections : Int
  isInitialized : Bool
  deriving DecidableEq

/-- State right after `initialize()`: empty registries, zeroed metrics. -/
def initState : WSState :=
  { connectedUsers := []
    userSockets := []
    rooms := []
    alive := []
    socketUsername := []
    totalConnections := 0
    currentConnections := 0
    totalDisconnections := 0
    isInitialized := true }

/-- Embedding of `handleConnection`: the transport registers the socket
and both connection counters are incremented. -/
def handleConnection (sid : Nat) (st : WSState) : WSState :=
  { st with
    alive := sid :: st.alive
    totalConnections := st.totalConnections + 1
    currentConnections := st.currentConnections + 1 }

/-- Removal of one user from every room, embedding the room purge loop of
`handleDisconnection`: the user is erased from each membership set, a
`user_left_room` event is emitted for each affected room, and rooms whose
membership becomes empty are deleted. -/
def purgeRooms (u : String) :
    List (String × List String) → List (String × List String) × List WSEvent
  | [] => ([], [])
  | (r, mems) :: rest =>
    let pr := purgeRooms u rest
    if u ∈ mems then
      let mems₂ := mems.erase u
      if mems₂.isEmpty then (pr.1, WSEvent.userLeftRoom r u :: pr.2)
      else ((r, mems₂) :: pr.1, WSEvent.userLeftRoom r u :: pr.2)
    else ((r, mems) :: pr.1, pr.2)

/-- Embedding of `handleDisconnection` (the transport first removes the
socket from `io.sockets.sockets`, then the handler runs): decrement and
increment the counters, and if the socket was authenticated remove both
registry bindings, purge the user from all rooms and broadcast the
`offline` status. -/
def handleDisconnection (sid : Nat) (st : WSState) : WSState × List WSEvent :=
  match getA sid st.userSockets with
  | none =>
    ({ st with
       alive := st.alive.erase sid
       currentConnections := st.currentConnections - 1
       totalDisconnections := st.totalDisconnections + 1 }, [])
  | some u =>
    ({ st with
       alive := st.alive.erase sid
       currentConnections := st.currentConnections - 1
       totalDisconnections := st.totalDisconnections + 1
       connectedUsers := delA u st.connectedUsers
       userSockets := delA sid st.userSockets
       rooms := (purgeRooms u st.rooms).1 },
     (purgeRooms u st.rooms).2 ++ [WSEvent.userStatus u "offline"])

/-- Embedding of `removeUserFromPreviousSocket`: if the username already
has an entry in `connectedUsers`, the recorded previous socket is looked
up among the live sockets and, when still alive, forcibly disconnected
(which synchronously fires `handleDisconnection`); the previous socket
entry of `userSockets` is then deleted. -/
def removeUserFromPreviousSocket (u : String) (st : WSState) :
    WSState × List WSEvent :=
  match getA u st.connectedUsers with
  | none => (st, [])
  | some prev =>
    if prev.socketId ∈ st.alive then
      ({ (handleDisconnection prev.socketId st).1 with
         userSockets :=
           delA prev.socketId (handleDisconnection prev.socketId st).1.userSockets },
       WSEvent.forcedDisconnect prev.socketId ::
         (handleDisconnection prev.socketId st).2)
    else
      ({ st with userSockets := delA prev.socketId st.userSockets }, [])

/-- Successful branch of `handleAuthentication`: supersede any previous
socket of the same username, install the new bindings, set
`socket.username`, emit the `authenticated` acknowledgement and broadcast
the `online` status. -/
def authInstall (sid : Nat) (u : String) (meta : List (String × String))
    (now : Nat) (st : WSState) : WSState × List WSEvent :=
  ({ (removeUserFromPreviousSocket u st).1 with
     connectedUsers :=
       setA u ⟨sid, ⟨meta, now, now⟩⟩
         (removeUserFromPreviousSocket u st).1.connectedUsers
     userSockets := setA sid u (removeUserFromPreviousSocket u st).1.userSockets
     socketUsername :=
       setA sid u (removeUserFromPreviousSocket u st).1.socketUsername },
   (removeUserFromPreviousSocket u st).2 ++
     [WSEvent.authenticated sid u
        (setA u ⟨sid, ⟨meta, now, now⟩⟩
          (removeUserFromPreviousSocket u st).1.connectedUsers).length,
      WSEvent.userStatus u "online"])

/-- Embedding of `handleAuthentication`: a missing or empty username is
rejected with `authentication_error` and nothing else happens; otherwise
the success branch `authInstall` runs. -/
def handleAuthentication (sid : Nat) (username? : Option String)
    (meta : List (String × String)) (now : Nat) (st : WSState) :
    WSState × List WSEvent :=
  match username? with
  | none => (st, [WSEvent.authError sid])
  | some u =>
    if u.isEmpty then (st, [WSEvent.authError sid])
    else authInstall sid u meta now st

/-- JavaScript truthiness of the destructured `username` field of the
authentication payload: absent and empty strings are falsy. -/
def usernameGiven : Option String → Bool
  | none => false
  | some u => !u.isEmpty

/-- Embedding of `handlePing`: always answer with `pong`; when the socket
is authenticated and its user is still registered, refresh the `lastSeen`
timestamp of that user entry. -/
def handlePing (sid : Nat) (now : Nat) (st : WSState) :
    WSState × List WSEvent :=
  match getA sid st.userSockets with
  | none => (st, [WSEvent.pong sid])
  | some u =>
    match getA u st.connectedUsers with
    | none => (st, [WSEvent.pong sid])
    | some info =>
      ({ st with
         connectedUsers :=
           setA u { info with userData := { info.userData with lastSeen := now } }
             st.connectedUsers },
       [WSEvent.pong sid])

/-- Additive part of `handleJoinRoom`: the updated membership set after
`Set.add`, appending the username in insertion order when absent. -/
def joinedMembers (u : String) (mems : List String) : List String :=
  if u ∈ mems then mems else mems ++ [u]

/-- Embedding of `handleJoinRoom`: reject unauthenticated sockets with a
`room_error`; otherwise create the room entry if absent, add the username
to the membership set, acknowledge with `room_joined` and notify the room
with `user_joined_room`. -/
def handleJoinRoom (sid : Nat) (room : String) (st : WSState) :
    WSState × List WSEvent :=
  match getA sid st.socketUsername with
  | none => (st, [WSEvent.roomError sid])
  | some u =>
    ({ st with
       rooms := setA room (joinedMembers u ((getA room st.rooms).getD []))
         st.rooms },
     [WSEvent.roomJoined sid room (joinedMembers u ((getA room st.rooms).getD [])),
      WSEvent.userJoinedRoom room u])

/-- Embedding of `handleLeaveRoom`: silently ignore unauthenticated
sockets; otherwise remove the username from the membership set, deleting
the room entry when it becomes empty, acknowledge with `room_left` and
notify the room with `user_left_room`. -/
def handleLeaveRoom (sid : Nat) (room : String) (st : WSState) :
    WSState × List WSEvent :=
  match getA sid st.socketUsername with
  | none => (st, [])
  | some u =>
    (match getA room st.rooms with
     | none => st
     | some mems =>
       if (mems.erase u).isEmpty then { st with rooms := delA room st.rooms }
       else { st with rooms := setA room (mems.erase u) st.rooms },
     [WSEvent.roomLeft sid room, WSEvent.userLeftRoom room u])

/-- Embedding of `isUserOnline`. -/
def isUserOnline (u : String) (st : WSState) : Bool :=
  hasA u st.connectedUsers

/-- Embedding of `getUserInfo`. -/
def getUserInfo (u : String) (st : WSState) : Option UserInfo :=
  getA u st.connectedUsers

/-- Embedding of `getRoomUsers`. -/
def getRoomUsers (room : String) (st : WSState) : List String :=
  (getA room st.rooms).getD []

/-- Embedding of `getAllRooms`. -/
def getAllRooms (st : WSState) : List String :=
  st.rooms.map Prod.fst

/-- Snapshot returned by `getConnectionMetrics`: the spread counters with
the `currentConnections` field overridden by `connectedUsers.size`. -/
structure MetricsSnapshot where
  totalConnections : Int
  currentConnections : Int
  totalDisconnections : Int
  roomsCount : Nat
  deriving DecidableEq

/-- Embedding of `getConnectionMetrics`. -/
def getConnectionMetrics (st : WSState) : MetricsSnapshot :=
  { totalConnections := st.totalConnections
    currentConnections := (st.connectedUsers.length : Int)
    totalDisconnections := st.totalDisconnections
    roomsCount := st.rooms.length }

/-- Envelope produced by `MessageService.formatMessage`: the original
payload fields plus a delivery timestamp and the server identifier tag. -/
structure Envelope where
  fields : List (String × String)
  timestamp : Nat
  serverId : String
  deriving DecidableEq

/-- Embedding of `MessageService.formatMessage`. -/
def formatMessage (data : List (String × String)) (now : Nat)
    (serverId : String) : Envelope :=
  { fields := data, timestamp := now, serverId := serverId }

/-- One outbound delivery performed by the message service:
`io.to(socketId).emit(event, message)`. -/
structure Delivery where
  target : Nat
  event : String
  message : Envelope
  deriving DecidableEq

/-- Embedding of `MessageService.sendToUser`: look the username up in the
registry; absent users yield `false` with no delivery; when the manager
is not initialized `getIO` throws and the catch block yields `false`;
otherwise one enveloped message is emitted to the recorded socket and the
call returns `true`. -/
def sendToUser (u : String) (event : String) (data : List (String × String))
    (now : Nat) (serverId : String) (st : WSState) : Bool × List Delivery :=
  match getA u st.connectedUsers with
  | none => (false, [])
  | some info =>
    if st.isInitialized then
      (true, [⟨info.socketId, event, formatMessage data now serverId⟩])
    else (false, [])

/-- Row of the `memes` table as used by the trending check. -/
structure Meme where
  id : Nat
  upvote_count : Nat
  updated_at : Nat
  deriving DecidableEq

/-- Memes whose `updated_at` is at or after the cutoff, embedding the
`gte(updated_at, tenMinutesAgo)` filter. -/
def recentMemes (db : List Meme) (cutoff : Nat) : List Meme :=
  db.filter (fun m => cutoff ≤ m.updated_at)

/-- Head of the list ordered by `upvote_count` descending, embedding
`order(upvote_count, descending).limit(1)`: the earliest entry holding
the maximal upvote count. -/
def topByUpvotes : List Meme → Option Meme
  | [] => none
  | m :: rest =>
    match topByUpvotes rest with
    | none => some m
    | some b => if b.upvote_count > m.upvote_count then some b else some m

/-- Embedding of `MemeService.checkAndBroadcastTrendingMeme`: compute the
leading meme among those updated in the trailing ten-minute window; when
it is the voted meme and its upvote count is a positive multiple of ten,
broadcast `meme_highlight` with the meme id and count (returned as
`some`), otherwise broadcast nothing (`none`). -/
def checkAndBroadcastTrendingMeme (db : List Meme) (now : Nat)
    (memeId : Nat) : Option (Nat × Nat) :=
  let tenMinutesAgo := now - 10 * 60 * 1000
  match topByUpvotes (recentMemes db tenMinutesAgo) with
  | none => none
  | some m =>
    if m.id = memeId then
      if 0 < m.upvote_count ∧ m.upvote_count % 10 = 0 then
        some (memeId, m.upvote_count)
      else none
    else none

/-- Transition relation of the presence layer: every constructor is one
externally triggered handler invocation on a live socket (or a fresh
transport connection). -/
inductive Reachable : WSState → Prop
  | init : Reachable initState
  | connect (st : WSState) (sid : Nat) (h : Reachable st)
      (hs : sid ∉ st.alive) : Reachable (handleConnection sid st)
  | disconnect (st : WSState) (sid : Nat) (h : Reachable st)
      (hs : sid ∈ st.alive) : Reachable (handleDisconnection sid st).1
  | auth (st : WSState) (sid : Nat) (username? : Option String)
      (meta : List (String × String)) (now : Nat) (h : Reachable st)
      (hs : sid ∈ st.alive) :
      Reachable (handleAuthentication sid username? meta now st).1
  | ping (st : WSState) (sid : Nat) (now : Nat) (h : Reachable st)
      (hs : sid ∈ st.alive) : Reachable (handlePing sid now st).1
  | joinRoom (st : WSState) (sid : Nat) (room : String) (h : Reachable st)
      (hs : sid ∈ st.alive) : Reachable (handleJoinRoom sid room st).1
  | leaveRoom (st : WSState) (sid : Nat) (room : String) (h : Reachable st)
      (hs : sid ∈ st.alive) : Reachable (handleLeaveRoom sid room st).1

/-! Basic lemmas about the association list operations. -/

theorem getA_eraseA_self {α β : Type} [DecidableEq α] (k : α)
    (m : List (α × β)) : getA k (eraseA k m) = none := by
  induction m with
  | nil => rfl
  | cons p rest ih =>
    obtain ⟨k₂, v⟩ := p
    by_cases h : k₂ = k
    · simp [eraseA, h, ih]
    · have h₂ : ¬ k = k₂ := fun hk => h hk.symm
      simp [eraseA, h, getA, h₂, ih]

theorem getA_eraseA_ne {α β : Type} [DecidableEq α] {k k₂ : α}
    (m : List (α × β)) (h : k ≠ k₂) : getA k (eraseA k₂ m) = getA k m := by
  induction m with
  | nil => rfl
  | cons p rest ih =>
    obtain ⟨k₃, v⟩ := p
    by_cases h₃ : k₃ = k₂
    · subst h₃
      simp [eraseA, getA, h, ih]
    · by_cases h₄ : k = k₃
      · simp [eraseA, h₃, getA, h₄]
      · simp [eraseA, h₃, getA, h₄, ih]

theorem getA_of_eraseA {α β : Type} [DecidableEq α] {k k₂ : α} {v : β}
    {m : List (α × β)} (h : getA k (eraseA k₂ m) = some v) :
    getA k m = some v ∧ k ≠ k₂ := by
  by_cases hk : k = k₂
  · subst hk
    rw [getA_eraseA_self] at h
    exact absurd h (by simp)
  · rw [getA_eraseA_ne m hk] at h
    exact ⟨h, hk⟩

theorem getA_setA_self {α β : Type} [DecidableEq α] (k : α) (v : β)
    (m : List (α × β)) : getA k (setA k v m) = some v := by
  simp [setA, getA]

theorem getA_setA_ne {α β : Type} [DecidableEq α] {k k₂ : α} (v : β)
    (m : List (α × β)) (h : k ≠ k₂) : getA k (setA k₂ v m) = getA k m := by
  simp [setA, getA, h]
  exact getA_eraseA_ne m h

theorem mem_of_getA {α β : Type} [DecidableEq α] {k : α} {v : β}
    {m : List (α × β)} (h : getA k m = some v) : (k, v) ∈ m := by
  induction m with
  | nil => simp [getA] at h
  | cons p rest ih =>
    obtain ⟨k₂, v₂⟩ := p
    by_cases hk : k = k₂
    · simp [getA, hk] at h
      simp [hk, h]
    · simp [getA, hk] at h
      simp [ih h]

theorem mem_eraseA {α β : Type} [DecidableEq α] {k : α} {p : α × β}
    {m : List (α × β)} (h : p ∈ eraseA k m) : p ∈ m := by
  induction m with
  | nil => simp [eraseA] at h
  | cons q rest ih =>
    obtain ⟨k₂, v₂⟩ := q
    by_cases hk : k₂ = k
    · simp [eraseA, hk] at h
      simp [ih h]
    · simp [eraseA, hk] at h
      rcases h with h | h
      · simp [h]
      · simp [ih h]

theorem mem_setA {α β : Type} [DecidableEq α] {k : α} {v : β} {p : α × β}
    {m : List (α × β)} (h : p ∈ setA k v m) : p = (k, v) ∨ p ∈ m := by
  simp [setA] at h
  rcases h with h | h
  · exact Or.inl h
  · exact Or.inr (mem_eraseA h)

theorem getA_isSome_of_mem_keys {α β : Type} [DecidableEq α] {k : α}
    {m : List (α × β)} (h : k ∈ m.map Prod.fst) :
    ∃ v, getA k m = some v := by
  induction m with
  | nil => simp at h
  | cons p rest ih =>
    obtain ⟨k₂, v₂⟩ := p
    by_cases hk : k = k₂
    · exact ⟨v₂, by simp [getA, hk]⟩
    · have h₂ : k ∈ rest.map Prod.fst := by
        simp only [List.map_cons, List.mem_cons] at h
        rcases h with h | h
        · exact absurd h hk
        · exact h
      obtain ⟨v, hv⟩ := ih h₂
      exact ⟨v, by simp [getA, hk, hv]⟩

theorem nodup_append_single {α : Type} {l : List α} {a : α}
    (h : l.Nodup) (ha : a ∉ l) : (l ++ [a]).Nodup := by
  induction l with
  | nil => simp
  | cons b rest ih =>
    simp only [List.nodup_cons] at h
    simp only [List.mem_cons, not_or] at ha
    simp only [List.cons_append, List.nodup_cons]
    refine ⟨?_, ih h.2 ha.2⟩
    simp only [List.mem_append, List.mem_singleton, not_or]
    exact ⟨h.1, fun hb => ha.1 hb.symm⟩

/-! Invariants of the reachable states. -/

/-- Consistency of the two registry maps: every `userSockets` entry points
back to a `connectedUsers` entry recording exactly that socket.  This is
the formal content of the at-most-one-connection-per-identity invariant:
it forces the sockets bound to one identity to coincide. -/
def SocketConsistent (st : WSState) : Prop :=
  ∀ s u, getA s st.userSockets = some u →
    ∃ info, getA u st.connectedUsers = some info ∧ info.socketId = s

/-- Well-formedness of the room directory: every stored membership set is
non-empty and duplicate-free. -/
def RoomsWF (st : WSState) : Prop :=
  ∀ p ∈ st.rooms, p.2 ≠ [] ∧ p.2.Nodup

/-- Accounting invariant of the raw connection counters. -/
def MetricsWF (st : WSState) : Prop :=
  st.currentConnections = (st.alive.length : Int) ∧
  0 ≤ st.totalDisconnections ∧
  st.totalConnections = (st.alive.length : Int) + st.totalDisconnections

/-- Conjunction of all state invariants maintained by the manager. -/
def ManagerInv (st : WSState) : Prop :=
  SocketConsistent st ∧ RoomsWF st ∧ MetricsWF st ∧ st.alive.Nodup

theorem sc_unique {st : WSState} (h : SocketConsistent st) :
    ∀ v s₁ s₂, getA s₁ st.userSockets = some v →
      getA s₂ st.userSockets = some v → s₁ = s₂ := by
  intro v s₁ s₂ h₁ h₂
  obtain ⟨i₁, hi₁, hs₁⟩ := h s₁ v h₁
  obtain ⟨i₂, hi₂, hs₂⟩ := h s₂ v h₂
  rw [hi₁] at hi₂
  cases hi₂
  rw [← hs₁, hs₂]

theorem us_socket_eq {st : WSState} {u : String} {prev : UserInfo} {s : Nat}
    (h : SocketConsistent st) (hcu : getA u st.connectedUsers = some prev)
    (hs : getA s st.userSockets = some u) : s = prev.socketId := by
  obtain ⟨info, hinfo, hsock⟩ := h s u hs
  rw [hcu] at hinfo
  cases hinfo
  exact hsock.symm

/-! Lemmas about `purgeRooms`. -/

theorem purgeRooms_wf (u : String) (rooms : List (String × List String))
    (h : ∀ p ∈ rooms, p.2 ≠ [] ∧ p.2.Nodup) :
    ∀ p ∈ (purgeRooms u rooms).1, p.2 ≠ [] ∧ p.2.Nodup := by
  induction rooms with
  | nil => intro p hp; simp [purgeRooms] at hp
  | cons q rest ih =>
    obtain ⟨r, mems⟩ := q
    have hq := h (r, mems) (by simp)
    have hrest : ∀ p ∈ rest, p.2 ≠ [] ∧ p.2.Nodup :=
      fun p hp => h p (List.mem_cons_of_mem _ hp)
    intro p hp
    by_cases hu : u ∈ mems
    · by_cases he : (mems.erase u).isEmpty = true
      · simp only [purgeRooms, if_pos hu, if_pos he] at hp
        exact ih hrest p hp
      · simp only [purgeRooms, if_pos hu, if_neg he, List.mem_cons] at hp
        rcases hp with hp | hp
        · subst hp
          refine ⟨?_, hq.2.erase u⟩
          intro hnil
          simp only at hnil
          rw [hnil] at he
          simp at he
        · exact ih hrest p hp
    · simp only [purgeRooms, if_neg hu, List.mem_cons] at hp
      rcases hp with hp | hp
      · subst hp; exact hq
      · exact ih hrest p hp

theorem purgeRooms_not_mem (u : String) (rooms : List (String × List String))
    (h : ∀ p ∈ rooms, p.2.Nodup) :
    ∀ r mems, getA r (purgeRooms u rooms).1 = some mems → u ∉ mems := by
  induction rooms with
  | nil => intro r mems hm; simp [purgeRooms, getA] at hm
  | cons q rest ih =>
    obtain ⟨r₀, mems₀⟩ := q
    have h₀ : mems₀.Nodup := (h (r₀, mems₀) (by simp))
    have hrest : ∀ p ∈ rest, p.2.Nodup :=
      fun p hp => h p (List.mem_cons_of_mem _ hp)
    intro r mems hm
    by_cases hu : u ∈ mems₀
    · by_cases he : (mems₀.erase u).isEmpty = true
      · simp only [purgeRooms, if_pos hu, if_pos he] at hm
        exact ih hrest r mems hm
      · simp only [purgeRooms, if_pos hu, if_neg he, getA] at hm
        by_cases hr : r = r₀
        · rw [if_pos hr] at hm
          cases hm
          exact h₀.not_mem_erase
        · rw [if_neg hr] at hm
          exact ih hrest r mems hm
    · simp only [purgeRooms, if_neg hu, getA] at hm
      by_cases hr : r = r₀
      · rw [if_pos hr] at hm
        cases hm
        exact hu
      · rw [if_neg hr] at hm
        exact ih hrest r mems hm

theorem purgeRooms_event (u : String) (rooms : List (String × List String)) :
    ∀ r mems, getA r rooms = some mems → u ∈ mems →
      WSEvent.userLeftRoom r u ∈ (purgeRooms u rooms).2 := by
  induction rooms with
  | nil => intro r mems hm; simp [getA] at hm
  | cons q rest ih =>
    obtain ⟨r₀, mems₀⟩ := q
    intro r mems hm hu
    by_cases hr : r = r₀
    · subst hr
      simp only [getA, if_pos rfl] at hm
      cases hm
      by_cases he : (mems₀.erase u).isEmpty = true
      · simp only [purgeRooms, if_pos hu, if_pos he, List.mem_cons]
        exact Or.inl trivial
      · simp only [purgeRooms, if_pos hu, if_neg he, List.mem_cons]
        exact Or.inl trivial
    · simp only [getA, if_neg hr] at hm
      have := ih r mems hm hu
      by_cases hu₀ : u ∈ mems₀
      · by_cases he : (mems₀.erase u).isEmpty = true
        · simp only [purgeRooms, if_pos hu₀, if_pos he, List.mem_cons]
          exact Or.inr this
        · simp only [purgeRooms, if_pos hu₀, if_neg he, List.mem_cons]
          exact Or.inr this
      · simp only [purgeRooms, if_neg hu₀]
        exact this

/-! Preservation of `SocketConsistent` by every operation. -/

theorem sc_delUS (st : WSState) (k : Nat) (h : SocketConsistent st) :
    SocketConsistent { st with userSockets := delA k st.userSockets } := by
  intro s u hs
  exact h s u (getA_of_eraseA hs).1

theorem sc_handleConnection (sid : Nat) (st : WSState)
    (h : SocketConsistent st) : SocketConsistent (handleConnection sid st) := by
  intro s u hs
  exact h s u hs

theorem sc_handleDisconnection (sid : Nat) (st : WSState)
    (h : SocketConsistent st) :
    SocketConsistent (handleDisconnection sid st).1 := by
  unfold handleDisconnection
  cases hUS : getA sid st.userSockets with
  | none =>
    intro s u hs
    exact h s u hs
  | some u₀ =>
    intro s v hs
    obtain ⟨hs₂, hne⟩ := getA_of_eraseA hs
    by_cases hv : v = u₀
    · subst hv
      exact absurd (sc_unique h v s sid hs₂ hUS) hne
    · obtain ⟨info, hinfo, hsock⟩ := h s v hs₂
      refine ⟨info, ?_, hsock⟩
      show getA v (delA u₀ st.connectedUsers) = some info
      rw [delA, getA_eraseA_ne _ hv]
      exact hinfo

theorem removeUser_no_entry (u : String) (st : WSState)
    (h : SocketConsistent st) :
    ∀ s, getA s (removeUserFromPreviousSocket u st).1.userSockets ≠ some u := by
  unfold removeUserFromPreviousSocket
  cases hcu : getA u st.connectedUsers with
  | none =>
    intro s hs
    obtain ⟨info, hinfo, _⟩ := h s u hs
    rw [hcu] at hinfo
    exact absurd hinfo (by simp)
  | some prev =>
    by_cases ha : prev.socketId ∈ st.alive
    · simp only [if_pos ha]
      intro s hs
      obtain ⟨hs₂, hne⟩ := getA_of_eraseA hs
      revert hs₂
      unfold handleDisconnection
      cases hUS : getA prev.socketId st.userSockets with
      | none =>
        intro hs₂
        exact hne (us_socket_eq h hcu hs₂)
      | some w =>
        intro hs₂
        obtain ⟨hs₃, _⟩ := getA_of_eraseA hs₂
        exact hne (us_socket_eq h hcu hs₃)
    · simp only [if_neg ha]
      intro s hs
      obtain ⟨hs₂, hne⟩ := getA_of_eraseA hs
      exact hne (us_socket_eq h hcu hs₂)

theorem sc_removeUser (u : String) (st : WSState) (h : SocketConsistent st) :
    SocketConsistent (removeUserFromPreviousSocket u st).1 := by
  unfold removeUserFromPreviousSocket
  cases hcu : getA u st.connectedUsers with
  | none => exact h
  | some prev =>
    by_cases ha : prev.socketId ∈ st.alive
    · simp only [if_pos ha]
      exact sc_delUS _ _ (sc_handleDisconnection prev.socketId st h)
    · simp only [if_neg ha]
      exact sc_delUS _ _ h

theorem sc_authInstall (sid : Nat) (u : String) (meta : List (String × String))
    (now : Nat) (st : WSState) (h : SocketConsistent st) :
    SocketConsistent (authInstall sid u meta now st).1 := by
  have hsc := sc_removeUser u st h
  have hno := removeUser_no_entry u st h
  intro s v hs
  have hs₂ : getA s (setA sid u (removeUserFromPreviousSocket u st).1.userSockets) =
      some v := hs
  by_cases hsid : s = sid
  · subst hsid
    rw [getA_setA_self] at hs₂
    injection hs₂ with hv
    subst hv
    exact ⟨⟨s, ⟨meta, now, now⟩⟩, getA_setA_self _ _ _, rfl⟩
  · rw [getA_setA_ne _ _ hsid] at hs₂
    have hvu : v ≠ u := fun hv => hno s (hv ▸ hs₂)
    obtain ⟨info, hinfo, hsock⟩ := hsc s v hs₂
    refine ⟨info, ?_, hsock⟩
    have : getA v (setA u ⟨sid, ⟨meta, now, now⟩⟩
        (removeUserFromPreviousSocket u st).1.connectedUsers) = some info := by
      rw [getA_setA_ne _ _ hvu]
      exact hinfo
    exact this

theorem sc_handleAuthentication (sid : Nat) (username? : Option String)
    (meta : List (String × String)) (now : Nat) (st : WSState)
    (h : SocketConsistent st) :
    SocketConsistent (handleAuthentication sid username? meta now st).1 := by
  unfold handleAuthentication
  cases username? with
  | none => exact h
  | some u =>
    by_cases he : u.isEmpty = true
    · simp only [if_pos he]
      exact h
    · simp only [if_neg he]
      exact sc_authInstall sid u meta now st h

theorem sc_handlePing (sid : Nat) (now : Nat) (st : WSState)
    (h : SocketConsistent st) :
    SocketConsistent (handlePing sid now st).1 := by
  unfold handlePing
  cases hUS : getA sid st.userSockets with
  | none => exact h
  | some u =>
    simp only []
    cases hCU : getA u st.connectedUsers with
    | none => exact h
    | some info =>
      intro s v hs
      have hs₂ : getA s st.userSockets = some v := hs
      obtain ⟨info₂, hinfo₂, hsock₂⟩ := h s v hs₂
      by_cases hv : v = u
      · subst hv
        rw [hCU] at hinfo₂
        injection hinfo₂ with heq
        refine ⟨{ info with userData := { info.userData with lastSeen := now } },
                getA_setA_self _ _ _, ?_⟩
        show info.socketId = s
        rw [heq]
        exact hsock₂
      · refine ⟨info₂, ?_, hsock₂⟩
        have : getA v (setA u
            { info with userData := { info.userData with lastSeen := now } }
            st.connectedUsers) = some info₂ := by
          rw [getA_setA_ne _ _ hv]
          exact hinfo₂
        exact this

theorem sc_handleJoinRoom (sid : Nat) (room : String) (st : WSState)
    (h : SocketConsistent st) :
    SocketConsistent (handleJoinRoom sid room st).1 := by
  unfold handleJoinRoom
  cases getA sid st.socketUsername with
  | none => exact h
  | some u =>
    intro s v hs
    exact h s v hs

theorem sc_handleLeaveRoom (sid : Nat) (room : String) (st : WSState)
    (h : SocketConsistent st) :
    SocketConsistent (handleLeaveRoom sid room st).1 := by
  unfold handleLeaveRoom
  cases getA sid st.socketUsername with
  | none => exact h
  | some u =>
    cases getA room st.rooms with
    | none => exact h
    | some mems =>
      by_cases he : (mems.erase u).isEmpty = true
      · simp only [if_pos he]
        intro s v hs
        exact h s v hs
      · simp only [if_neg he]
        intro s v hs
        exact h s v hs

/-! Preservation of `RoomsWF` by every operation. -/

theorem roomsWF_handleConnection (sid : Nat) (st : WSState) (h : RoomsWF st) :
    RoomsWF (handleConnection sid st) := h

theorem roomsWF_handleDisconnection (sid : Nat) (st : WSState)
    (h : RoomsWF st) : RoomsWF (handleDisconnection sid st).1 := by
  unfold handleDisconnection
  cases hUS : getA sid st.userSockets with
  | none => exact h
  | some u =>
    intro p hp
    exact purgeRooms_wf u st.rooms h p hp

theorem roomsWF_removeUser (u : String) (st : WSState) (h : RoomsWF st) :
    RoomsWF (removeUserFromPreviousSocket u st).1 := by
  unfold removeUserFromPreviousSocket
  cases hcu : getA u st.connectedUsers with
  | none => exact h
  | some prev =>
    by_cases ha : prev.socketId ∈ st.alive
    · simp only [if_pos ha]
      intro p hp
      exact roomsWF_handleDisconnection prev.socketId st h p hp
    · simp only [if_neg ha]
      exact h

theorem roomsWF_authInstall (sid : Nat) (u : String)
    (meta : List (String × String)) (now : Nat) (st : WSState)
    (h : RoomsWF st) : RoomsWF (authInstall sid u meta now st).1 := by
  intro p hp
  exact roomsWF_removeUser u st h p hp

theorem roomsWF_handleAuthentication (sid : Nat) (username? : Option String)
    (meta : List (String × String)) (now : Nat) (st : WSState)
    (h : RoomsWF st) :
    RoomsWF (handleAuthentication sid username? meta now st).1 := by
  unfold handleAuthentication
  cases username? with
  | none => exact h
  | some u =>
    by_cases he : u.isEmpty = true
    · simp only [if_pos he]
      exact h
    · simp only [if_neg he]
      exact roomsWF_authInstall sid u meta now st h

theorem roomsWF_handlePing (sid : Nat) (now : Nat) (st : WSState)
    (h : RoomsWF st) : RoomsWF (handlePing sid now st).1 := by
  unfold handlePing
  cases hUS : getA sid st.userSockets with
  | none => exact h
  | some u =>
    simp only []
    cases hCU : getA u st.connectedUsers with
    | none => exact h
    | some info => exact h

theorem roomsWF_handleJoinRoom (sid : Nat) (room : String) (st : WSState)
    (h : RoomsWF st) : RoomsWF (handleJoinRoom sid room st).1 := by
  unfold handleJoinRoom
  cases hU : getA sid st.socketUsername with
  | none => exact h
  | some u =>
    intro p hp
    rcases mem_setA hp with hp | hp
    · subst hp
      cases hr : getA room st.rooms with
      | none =>
        refine ⟨?_, ?_⟩
        · show joinedMembers u ((none : Option (List String)).getD []) ≠ []
          simp [joinedMembers]
        · show (joinedMembers u ((none : Option (List String)).getD [])).Nodup
          simp [joinedMembers]
      | some mems =>
        have hm := h (room, mems) (mem_of_getA hr)
        by_cases hu : u ∈ mems
        · refine ⟨?_, ?_⟩
          · show joinedMembers u ((some mems).getD []) ≠ []
            simp only [joinedMembers, Option.getD, if_pos hu]
            exact hm.1
          · show (joinedMembers u ((some mems).getD [])).Nodup
            simp only [joinedMembers, Option.getD, if_pos hu]
            exact hm.2
        · refine ⟨?_, ?_⟩
          · show joinedMembers u ((some mems).getD []) ≠ []
            simp [joinedMembers, hu]
          · show (joinedMembers u ((some mems).getD [])).Nodup
            simp only [joinedMembers, Option.getD, if_neg hu]
            exact nodup_append_single hm.2 hu
    · exact h p hp

theorem roomsWF_handleLeaveRoom (sid : Nat) (room : String) (st : WSState)
    (h : RoomsWF st) : RoomsWF (handleLeaveRoom sid room st).1 := by
  unfold handleLeaveRoom
  cases hU : getA sid st.socketUsername with
  | none => exact h
  | some u =>
    cases hr : getA room st.rooms with
    | none => exact h
    | some mems =>
      by_cases he : (mems.erase u).isEmpty = true
      · simp only [if_pos he]
        intro p hp
        exact h p (mem_eraseA hp)
      · simp only [if_neg he]
        intro p hp
        rcases mem_setA hp with hp | hp
        · subst hp
          have hm := h (room, mems) (mem_of_getA hr)
          refine ⟨?_, hm.2.erase u⟩
          intro hnil
          apply he
          show (mems.erase u).isEmpty = true
          rw [show mems.erase u = [] from hnil]
          rfl
        · exact h p hp

/-! Preservation of `MetricsWF` by every operation. -/

theorem metrics_handleConnection (sid : Nat) (st : WSState)
    (h : MetricsWF st) : MetricsWF (handleConnection sid st) := by
  obtain ⟨h1, h2, h3⟩ := h
  refine ⟨?_, h2, ?_⟩
  · show st.currentConnections + 1 = ((sid :: st.alive).length : Int)
    simp only [List.length_cons]
    push_cast
    omega
  · show st.totalConnections + 1 =
      ((sid :: st.alive).length : Int) + st.totalDisconnections
    simp only [List.length_cons]
    push_cast
    omega

theorem metrics_handleDisconnection (sid : Nat) (st : WSState)
    (hmem : sid ∈ st.alive) (h : MetricsWF st) :
    MetricsWF (handleDisconnection sid st).1 := by
  obtain ⟨h1, h2, h3⟩ := h
  have h0 : 0 < st.alive.length := List.length_pos_of_mem hmem
  have hlen : (st.alive.erase sid).length = st.alive.length - 1 :=
    List.length_erase_of_mem hmem
  have hlen₂ : ((st.alive.erase sid).length : Int) = (st.alive.length : Int) - 1 := by
    rw [hlen]
    omega
  unfold handleDisconnection
  cases hUS : getA sid st.userSockets with
  | none =>
    refine ⟨?_, ?_, ?_⟩ <;> (simp only []; omega)
  | some u =>
    refine ⟨?_, ?_, ?_⟩ <;> (simp only []; omega)

theorem metrics_removeUser (u : String) (st : WSState) (h : MetricsWF st) :
    MetricsWF (removeUserFromPreviousSocket u st).1 := by
  unfold removeUserFromPreviousSocket
  cases hcu : getA u st.connectedUsers with
  | none => exact h
  | some prev =>
    by_cases ha : prev.socketId ∈ st.alive
    · simp only [if_pos ha]
      have hd := metrics_handleDisconnection prev.socketId st ha h
      exact ⟨hd.1, hd.2.1, hd.2.2⟩
    · simp only [if_neg ha]
      exact ⟨h.1, h.2.1, h.2.2⟩

theorem metrics_authInstall (sid : Nat) (u : String)
    (meta : List (String × String)) (now : Nat) (st : WSState)
    (h : MetricsWF st) : MetricsWF (authInstall sid u meta now st).1 := by
  have hr := metrics_removeUser u st h
  exact ⟨hr.1, hr.2.1, hr.2.2⟩

theorem metrics_handleAuthentication (sid : Nat) (username? : Option String)
    (meta : List (String × String)) (now : Nat) (st : WSState)
    (h : MetricsWF st) :
    MetricsWF (handleAuthentication sid username? meta now st).1 := by
  unfold handleAuthentication
  cases username? with
  | none => exact h
  | some u =>
    by_cases he : u.isEmpty = true
    · simp only [if_pos he]
      exact h
    · simp only [if_neg he]
      exact metrics_authInstall sid u meta now st h

theorem metrics_handlePing (sid : Nat) (now : Nat) (st : WSState)
    (h : MetricsWF st) : MetricsWF (handlePing sid now st).1 := by
  unfold handlePing
  cases hUS : getA sid st.userSockets with
  | none => exact h
  | some u =>
    simp only []
    cases hCU : getA u st.connectedUsers with
    | none => exact h
    | some info => exact ⟨h.1, h.2.1, h.2.2⟩

theorem metrics_handleJoinRoom (sid : Nat) (room : String) (st : WSState)
    (h : MetricsWF st) : MetricsWF (handleJoinRoom sid room st).1 := by
  unfold handleJoinRoom
  cases hU : getA sid st.socketUsername with
  | none => exact h
  | some u => exact ⟨h.1, h.2.1, h.2.2⟩

theorem metrics_handleLeaveRoom (sid : Nat) (room : String) (st : WSState)
    (h : MetricsWF st) : MetricsWF (handleLeaveRoom sid room st).1 := by
  unfold handleLeaveRoom
  cases hU : getA sid st.socketUsername with
  | none => exact h
  | some u =>
    cases hr : getA room st.rooms with
    | none => exact h
    | some mems =>
      by_cases he : (mems.erase u).isEmpty = true
      · simp only [if_pos he]
        exact ⟨h.1, h.2.1, h.2.2⟩
      · simp only [if_neg he]
        exact ⟨h.1, h.2.1, h.2.2⟩

/-! Preservation of duplicate-freeness of the live socket list. -/

theorem nodup_handleConnection (sid : Nat) (st : WSState)
    (h : st.alive.Nodup) (hs : sid ∉ st.alive) :
    (handleConnection sid st).alive.Nodup := by
  show (sid :: st.alive).Nodup
  exact List.nodup_cons.mpr ⟨hs, h⟩

theorem nodup_handleDisconnection (sid : Nat) (st : WSState)
    (h : st.alive.Nodup) : (handleDisconnection sid st).1.alive.Nodup := by
  unfold handleDisconnection
  cases hUS : getA sid st.userSockets with
  | none => exact h.erase sid
  | some u => exact h.erase sid

theorem nodup_removeUser (u : String) (st : WSState) (h : st.alive.Nodup) :
    (removeUserFromPreviousSocket u st).1.alive.Nodup := by
  unfold removeUserFromPreviousSocket
  cases hcu : getA u st.connectedUsers with
  | none => exact h
  | some prev =>
    by_cases ha : prev.socketId ∈ st.alive
    · simp only [if_pos ha]
      exact nodup_handleDisconnection prev.socketId st h
    · simp only [if_neg ha]
      exact h

theorem nodup_handleAuthentication (sid : Nat) (username? : Option String)
    (meta : List (String × String)) (now : Nat) (st : WSState)
    (h : st.alive.Nodup) :
    (handleAuthentication sid username? meta now st).1.alive.Nodup := by
  unfold handleAuthentication
  cases username? with
  | none => exact h
  | some u =>
    by_cases he : u.isEmpty = true
    · simp only [if_pos he]
      exact h
    · simp only [if_neg he]
      exact nodup_removeUser u st h

theorem nodup_handlePing (sid : Nat) (now : Nat) (st : WSState)
    (h : st.alive.Nodup) : (handlePing sid now st).1.alive.Nodup := by
  unfold handlePing
  cases hUS : getA sid st.userSockets with
  | none => exact h
  | some u =>
    simp only []
    cases hCU : getA u st.connectedUsers with
    | none => exact h
    | some info => exact h

theorem nodup_handleJoinRoom (sid : Nat) (room : String) (st : WSState)
    (h : st.alive.Nodup) : (handleJoinRoom sid room st).1.alive.Nodup := by
  unfold handleJoinRoom
  cases hU : getA sid st.socketUsername with
  | none => exact h
  | some u => exact h

theorem nodup_handleLeaveRoom (sid : Nat) (room : String) (st : WSState)
    (h : st.alive.Nodup) : (handleLeaveRoom sid room st).1.alive.Nodup := by
  unfold handleLeaveRoom
  cases hU : getA sid st.socketUsername with
  | none => exact h
  | some u =>
    cases hr : getA room st.rooms with
    | none => exact h
    | some mems =>
      by_cases he : (mems.erase u).isEmpty = true
      · simp only [if_pos he]
        exact h
      · simp only [if_neg he]
        exact h

/-- Every reachable state satisfies all manager invariants. -/
theorem reachable_inv (st : WSState) (h : Reachable st) : ManagerInv st := by
  induction h with
  | init =>
    refine ⟨?_, ?_, ?_, ?_⟩
    · intro s u hs
      simp [initState, getA] at hs
    · intro p hp
      simp [initState] at hp
    · exact ⟨rfl, le_refl 0, rfl⟩
    · simp [initState]
  | connect st sid h hs ih =>
    exact ⟨sc_handleConnection sid st ih.1,
           roomsWF_handleConnection sid st ih.2.1,
           metrics_handleConnection sid st ih.2.2.1,
           nodup_handleConnection sid st ih.2.2.2 hs⟩
  | disconnect st sid h hs ih =>
    exact ⟨sc_handleDisconnection sid st ih.1,
           roomsWF_handleDisconnection sid st ih.2.1,
           metrics_handleDisconnection sid st hs ih.2.2.1,
           nodup_handleDisconnection sid st ih.2.2.2⟩
  | auth st sid username? meta now h hs ih =>
    exact ⟨sc_handleAuthentication sid username? meta now st ih.1,
           roomsWF_handleAuthentication sid username? meta now st ih.2.1,
           metrics_handleAuthentication sid username? meta now st ih.2.2.1,
           nodup_handleAuthentication sid username? meta now st ih.2.2.2⟩
  | ping st sid now h hs ih =>
    exact ⟨sc_handlePing sid now st ih.1,
           roomsWF_handlePing sid now st ih.2.1,
           metrics_handlePing sid now st ih.2.2.1,
           nodup_handlePing sid now st ih.2.2.2⟩
  | joinRoom st sid room h hs ih =>
    exact ⟨sc_handleJoinRoom sid room st ih.1,
           roomsWF_handleJoinRoom sid room st ih.2.1,
           metrics_handleJoinRoom sid room st ih.2.2.1,
           nodup_handleJoinRoom sid room st ih.2.2.2⟩
  | leaveRoom st sid room h hs ih =>
    exact ⟨sc_handleLeaveRoom sid room st ih.1,
           roomsWF_handleLeaveRoom sid room st ih.2.1,
           metrics_handleLeaveRoom sid room st ih.2.2.1,
           nodup_handleLeaveRoom sid room st ih.2.2.2⟩

/-! Concrete demonstration states used by the witnesses. -/

/-- One fresh, not yet authenticated connection with socket id 1. -/
def demoConnected : WSState := handleConnection 1 initState

/-- Socket 1 authenticated as alice at time 5. -/
def demoAuthed : WSState :=
  (handleAuthentication 1 (some "alice") [] 5 demoConnected).1

/-- A second fresh connection with socket id 2 next to the alice session. -/
def demoTwo : WSState := handleConnection 2 demoAuthed

/-- Alice has additionally joined the room lobby. -/
def demoRoomSt : WSState := (handleJoinRoom 1 "lobby" demoAuthed).1

theorem demoConnected_reachable : Reachable demoConnected :=
  Reachable.connect initState 1 Reachable.init (by decide)

theorem demoAuthed_reachable : Reachable demoAuthed :=
  Reachable.auth demoConnected 1 (some "alice") [] 5 demoConnected_reachable
    (by decide)

theorem demoTwo_reachable : Reachable demoTwo :=
  Reachable.connect demoAuthed 2 demoAuthed_reachable (by decide)

theorem demoRoomSt_reachable : Reachable demoRoomSt :=
  Reachable.joinRoom demoAuthed 1 "lobby" demoAuthed_reachable (by decide)

/-! Claim theorems. -/

/-- Claim C3: an authenticate call whose payload has a missing or empty
username emits exactly one `authentication_error` to the originating
connection and leaves the whole manager state (connected users map,
socket map, room directory, metrics, liveness) unchanged, so the
connection stays unauthenticated and may retry. -/
theorem auth_missing_identity_rejected (st : WSState) (sid : Nat)
    (meta : List (String × String)) (now : Nat) (username? : Option String)
    (h : usernameGiven username? = false) :
    handleAuthentication sid username? meta now st =
      (st, [WSEvent.authError sid]) := by
  cases username? with
  | none => rfl
  | some u =>
    have hu : u.isEmpty = true := by
      simpa [usernameGiven] using h
    unfold handleAuthentication
    simp only []
    rw [if_pos hu]

theorem auth_missing_identity_rejected_witness :
    usernameGiven (some "") = false ∧
    handleAuthentication 0 (some "") [] 0 initState =
      (initState, [WSEvent.authError 0]) :=
  ⟨by decide,
   auth_missing_identity_rejected initState 0 [] 0 (some "") (by decide)⟩

/-- Claim C2 (amended): in every reachable state the raw counters satisfy
`currentConnections <= totalConnections` with `currentConnections` equal
to the number of active connections, both counters are incremented on a
connect and `currentConnections` is decremented on a disconnect; however
the metrics snapshot reports as `currentConnections` the size of the
`connectedUsers` map (the number of authenticated identities), not the
number of active connections. -/
theorem metrics_counters_amended (st : WSState) (sid : Nat)
    (h : Reachable st) :
    st.currentConnections ≤ st.totalConnections ∧
    st.currentConnections = (st.alive.length : Int) ∧
    (handleConnection sid st).totalConnections = st.totalConnections + 1 ∧
    (handleConnection sid st).currentConnections = st.currentConnections + 1 ∧
    (handleDisconnection sid st).1.currentConnections =
      st.currentConnections - 1 ∧
    (handleDisconnection sid st).1.totalDisconnections =
      st.totalDisconnections + 1 ∧
    (getConnectionMetrics st).currentConnections =
      (st.connectedUsers.length : Int) := by
  obtain ⟨-, -, hm, -⟩ := reachable_inv st h
  obtain ⟨h1, h2, h3⟩ := hm
  refine ⟨by omega, h1, rfl, rfl, ?_, ?_, rfl⟩ <;>
  · unfold handleDisconnection
    cases getA sid st.userSockets <;> rfl

theorem metrics_counters_amended_witness :
    demoConnected.currentConnections ≤ demoConnected.totalConnections ∧
    demoConnected.currentConnections = (demoConnected.alive.length : Int) ∧
    (handleConnection 2 demoConnected).totalConnections =
      demoConnected.totalConnections + 1 ∧
    (handleConnection 2 demoConnected).currentConnections =
      demoConnected.currentConnections + 1 ∧
    (handleDisconnection 2 demoConnected).1.currentConnections =
      demoConnected.currentConnections - 1 ∧
    (handleDisconnection 2 demoConnected).1.totalDisconnections =
      demoConnected.totalDisconnections + 1 ∧
    (getConnectionMetrics demoConnected).currentConnections =
      (demoConnected.connectedUsers.length : Int) :=
  metrics_counters_amended demoConnected 2 demoConnected_reachable

/-- Claim C2 counterexample: with exactly one accepted and still
unauthenticated connection the metrics snapshot reports zero current
connections although one connection is active, refuting the claim that
the snapshot field counts authenticated and unauthenticated active
connections alike. -/
theorem metrics_snapshot_counterexample :
    (getConnectionMetrics (handleConnection 0 initState)).currentConnections
      = 0 ∧
    (handleConnection 0 initState).alive.length = 1 ∧
    (getConnectionMetrics (handleConnection 0 initState)).currentConnections ≠
      ((handleConnection 0 initState).alive.length : Int) := by
  refine ⟨rfl, rfl, by decide⟩

/-- Claim C7: `sendToUser` returns `false` and delivers nothing when the
identity is offline, and for an online identity returns `true` and emits
exactly one message to the recorded socket of that identity, enveloped by
`formatMessage` with the original payload fields plus the delivery
timestamp and the server id tag. -/
theorem sendToUser_delivery (st : WSState) (u : String) (event : String)
    (data : List (String × String)) (now : Nat) (serverId : String)
    (hinit : st.isInitialized = true) :
    (isUserOnline u st = false →
      sendToUser u event data now serverId st = (false, [])) ∧
    (∀ info, getUserInfo u st = some info →
      sendToUser u event data now serverId st =
        (true, [⟨info.socketId, event, formatMessage data now serverId⟩])) := by
  constructor
  · intro hoff
    unfold sendToUser
    cases hcu : getA u st.connectedUsers with
    | none => rfl
    | some info =>
      exfalso
      unfold isUserOnline hasA at hoff
      rw [hcu] at hoff
      simp at hoff
  · intro info hinfo
    unfold sendToUser
    unfold getUserInfo at hinfo
    simp only [hinfo]
    rw [if_pos hinit]

theorem sendToUser_delivery_witness :
    demoAuthed.isInitialized = true ∧
    isUserOnline "bob" demoAuthed = false ∧
    sendToUser "bob" "note" [] 7 "server-1" demoAuthed = (false, []) ∧
    getUserInfo "alice" demoAuthed = some ⟨1, ⟨[], 5, 5⟩⟩ ∧
    sendToUser "alice" "note" [] 7 "server-1" demoAuthed =
      (true, [⟨1, "note", formatMessage [] 7 "server-1"⟩]) := by
  have h := sendToUser_delivery demoAuthed "alice" "note" [] 7 "server-1"
    (by decide)
  have h₂ := sendToUser_delivery demoAuthed "bob" "note" [] 7 "server-1"
    (by decide)
  exact ⟨by decide, by decide, h₂.1 (by decide), by decide,
         h.2 ⟨1, ⟨[], 5, 5⟩⟩ (by decide)⟩

/-- Claim C8: `handlePing` answers with `pong` and touches nothing except
the `lastSeen` field of the session owning the socket: the room
directory, both socket maps, the socket username property, the liveness
set and all three connection counters are unchanged; an unauthenticated
socket (or a dangling socket entry) leaves the registry untouched; for an
authenticated socket only the owning entry of `connectedUsers` changes,
and only in its `lastSeen` field, every other entry being preserved. -/
theorem ping_updates_only_lastSeen (st : WSState) (sid : Nat) (now : Nat) :
    (handlePing sid now st).1.rooms = st.rooms ∧
    (handlePing sid now st).1.userSockets = st.userSockets ∧
    (handlePing sid now st).1.socketUsername = st.socketUsername ∧
    (handlePing sid now st).1.alive = st.alive ∧
    (handlePing sid now st).1.totalConnections = st.totalConnections ∧
    (handlePing sid now st).1.currentConnections = st.currentConnections ∧
    (handlePing sid now st).1.totalDisconnections = st.totalDisconnections ∧
    (handlePing sid now st).2 = [WSEvent.pong sid] ∧
    (getA sid st.userSockets = none → (handlePing sid now st).1 = st) ∧
    (∀ u info, getA sid st.userSockets = some u →
      getA u st.connectedUsers = some info →
      getA u (handlePing sid now st).1.connectedUsers =
        some { info with userData := { info.userData with lastSeen := now } } ∧
      ∀ v, v ≠ u → getA v (handlePing sid now st).1.connectedUsers =
        getA v st.connectedUsers) := by
  unfold handlePing
  cases hUS : getA sid st.userSockets with
  | none =>
    refine ⟨rfl, rfl, rfl, rfl, rfl, rfl, rfl, rfl, fun _ => rfl, ?_⟩
    intro u info hu hinfo
    exact absurd hu (by simp)
  | some u₀ =>
    simp only []
    cases hCU : getA u₀ st.connectedUsers with
    | none =>
      refine ⟨rfl, rfl, rfl, rfl, rfl, rfl, rfl, rfl, ?_, ?_⟩
      · intro hnone
        exact absurd hnone (by simp)
      · intro u info hu hinfo
        injection hu with hu₂
        subst hu₂
        rw [hCU] at hinfo
        exact absurd hinfo (by simp)
    | some info₀ =>
      refine ⟨rfl, rfl, rfl, rfl, rfl, rfl, rfl, rfl, ?_, ?_⟩
      · intro hnone
        exact absurd hnone (by simp)
      · intro u info hu hinfo
        injection hu with hu₂
        subst hu₂
        rw [hCU] at hinfo
        injection hinfo with hinfo₂
        subst hinfo₂
        constructor
        · exact getA_setA_self _ _ _
        · intro v hv
          exact getA_setA_ne _ _ hv

theorem ping_updates_only_lastSeen_witness :
    getA 1 demoAuthed.userSockets = some "alice" ∧
    getA "alice" demoAuthed.connectedUsers = some ⟨1, ⟨[], 5, 5⟩⟩ ∧
    (handlePing 1 9 demoAuthed).1.rooms = demoAuthed.rooms ∧
    (handlePing 1 9 demoAuthed).2 = [WSEvent.pong 1] ∧
    getA "alice" (handlePing 1 9 demoAuthed).1.connectedUsers =
      some ⟨1, ⟨[], 5, 9⟩⟩ := by
  have h := ping_updates_only_lastSeen demoAuthed 1 9
  exact ⟨by decide, by decide, h.1, h.2.2.2.2.2.2.2.1,
         (h.2.2.2.2.2.2.2.2.2 "alice" ⟨1, ⟨[], 5, 5⟩⟩ (by decide)
            (by decide)).1⟩

/-- Membership set produced by a join always contains the joining user. -/
theorem mem_joinedMembers (u : String) (mems : List String) :
    u ∈ joinedMembers u mems := by
  unfold joinedMembers
  by_cases hu : u ∈ mems
  · rw [if_pos hu]
    exact hu
  · rw [if_neg hu]
    exact List.mem_append_right _ (by simp)

/-- Joining a room twice produces the same membership set as joining it
once. -/
theorem joinedMembers_idem (u : String) (mems : List String) :
    joinedMembers u (joinedMembers u mems) = joinedMembers u mems := by
  by_cases hu : u ∈ mems <;> simp [joinedMembers, hu]

/-- Claim C4: for an authenticated socket, joining a room puts the user in
the membership set returned afterwards, joining twice yields the same
membership as joining once, and leaving the room from the same start
state leaves a membership set without the user. -/
theorem join_members_leave_algebra (st : WSState) (sid : Nat) (u : String)
    (room : String) (hreach : Reachable st)
    (hA : getA sid st.socketUsername = some u) :
    u ∈ getRoomUsers room (handleJoinRoom sid room st).1 ∧
    getRoomUsers room
        (handleJoinRoom sid room (handleJoinRoom sid room st).1).1 =
      getRoomUsers room (handleJoinRoom sid room st).1 ∧
    u ∉ getRoomUsers room (handleLeaveRoom sid room st).1 := by
  obtain ⟨-, hwf, -, -⟩ := reachable_inv st hreach
  refine ⟨?_, ?_, ?_⟩
  · unfold handleJoinRoom getRoomUsers
    simp only [hA]
    rw [getA_setA_self]
    exact mem_joinedMembers u _
  · unfold handleJoinRoom getRoomUsers
    simp only [hA]
    simp only [getA_setA_self, Option.getD_some]
    exact joinedMembers_idem u _
  · unfold handleLeaveRoom getRoomUsers
    simp only [hA]
    cases hr : getA room st.rooms with
    | none =>
      simp only []
      rw [hr]
      simp
    | some mems =>
      simp only []
      by_cases he : (mems.erase u).isEmpty = true
      · rw [if_pos he]
        show u ∉ (getA room (delA room st.rooms)).getD []
        rw [delA, getA_eraseA_self]
        simp
      · rw [if_neg he]
        show u ∉ (getA room (setA room (mems.erase u) st.rooms)).getD []
        rw [getA_setA_self]
        simp only [Option.getD_some]
        exact ((hwf (room, mems) (mem_of_getA hr)).2).not_mem_erase

theorem join_members_leave_algebra_witness :
    getA 1 demoAuthed.socketUsername = some "alice" ∧
    "alice" ∈ getRoomUsers "lobby" (handleJoinRoom 1 "lobby" demoAuthed).1 ∧
    getRoomUsers "lobby"
        (handleJoinRoom 1 "lobby" (handleJoinRoom 1 "lobby" demoAuthed).1).1 =
      getRoomUsers "lobby" (handleJoinRoom 1 "lobby" demoAuthed).1 ∧
    "alice" ∉ getRoomUsers "lobby" (handleLeaveRoom 1 "lobby" demoAuthed).1 := by
  have h := join_members_leave_algebra demoAuthed 1 "alice" "lobby"
    demoAuthed_reachable (by decide)
  exact ⟨by decide, h.1, h.2.1, h.2.2⟩

/-- Claim C5: in every reachable state, every room listed by the room
directory has a non-empty membership set: rooms are created only by a
join (which inserts a member) and every removal of a member deletes the
room entry once the membership set becomes empty. -/
theorem rooms_listed_nonempty (st : WSState) (room : String)
    (hreach : Reachable st) (hroom : room ∈ getAllRooms st) :
    getRoomUsers room st ≠ [] := by
  obtain ⟨-, hwf, -, -⟩ := reachable_inv st hreach
  obtain ⟨mems, hm⟩ :=
    getA_isSome_of_mem_keys (show room ∈ st.rooms.map Prod.fst from hroom)
  have hne := (hwf (room, mems) (mem_of_getA hm)).1
  unfold getRoomUsers
  rw [hm]
  simpa using hne

theorem rooms_listed_nonempty_witness :
    "lobby" ∈ getAllRooms demoRoomSt ∧ getRoomUsers "lobby" demoRoomSt ≠ [] :=
  ⟨by decide,
   rooms_listed_nonempty demoRoomSt "lobby" demoRoomSt_reachable (by decide)⟩

/-- Claim C6: when an authenticated connection disconnects, the bound
identity is removed from every room, a `user_left_room` event is emitted
towards each room it belonged to, both registry bindings disappear, the
`offline` presence change is broadcast, and afterwards the identity is in
no room and reported offline. -/
theorem disconnect_purges_identity (st : WSState) (sid : Nat) (u : String)
    (hreach : Reachable st) (hUS : getA sid st.userSockets = some u) :
    (∀ room, u ∉ getRoomUsers room (handleDisconnection sid st).1) ∧
    isUserOnline u (handleDisconnection sid st).1 = false ∧
    getA sid (handleDisconnection sid st).1.userSockets = none ∧
    WSEvent.userStatus u "offline" ∈ (handleDisconnection sid st).2 ∧
    (∀ room, u ∈ getRoomUsers room st →
      WSEvent.userLeftRoom room u ∈ (handleDisconnection sid st).2) := by
  obtain ⟨-, hwf, -, -⟩ := reachable_inv st hreach
  have hnd : ∀ p ∈ st.rooms, p.2.Nodup := fun p hp => (hwf p hp).2
  unfold handleDisconnection
  simp only [hUS]
  refine ⟨?_, ?_, ?_, ?_, ?_⟩
  · intro room
    unfold getRoomUsers
    cases hr : getA room (purgeRooms u st.rooms).1 with
    | none => simp
    | some mems =>
      simp only [Option.getD_some]
      exact purgeRooms_not_mem u st.rooms hnd room mems hr
  · show hasA u (delA u st.connectedUsers) = false
    unfold hasA
    rw [delA, getA_eraseA_self]
    rfl
  · show getA sid (delA sid st.userSockets) = none
    rw [delA, getA_eraseA_self]
  · exact List.mem_append_right _ (by simp)
  · intro room hmem
    unfold getRoomUsers at hmem
    cases hr : getA room st.rooms with
    | none =>
      rw [hr] at hmem
      simp at hmem
    | some mems =>
      rw [hr] at hmem
      simp only [Option.getD_some] at hmem
      exact List.mem_append_left _ (purgeRooms_event u st.rooms room mems hr hmem)

theorem disconnect_purges_identity_witness :
    getA 1 demoRoomSt.userSockets = some "alice" ∧
    "alice" ∈ getRoomUsers "lobby" demoRoomSt ∧
    "alice" ∉ getRoomUsers "lobby" (handleDisconnection 1 demoRoomSt).1 ∧
    isUserOnline "alice" (handleDisconnection 1 demoRoomSt).1 = false ∧
    WSEvent.userStatus "alice" "offline" ∈ (handleDisconnection 1 demoRoomSt).2 ∧
    WSEvent.userLeftRoom "lobby" "alice" ∈ (handleDisconnection 1 demoRoomSt).2 := by
  have h := disconnect_purges_identity demoRoomSt 1 "alice"
    demoRoomSt_reachable (by decide)
  exact ⟨by decide, by decide, h.1 "lobby", h.2.1, h.2.2.2.1,
         h.2.2.2.2 "lobby" (by decide)⟩

/-- Claim C1: authenticating an identity that already holds a session on a
different live connection forcibly disconnects that prior connection and
removes its socket binding before the new binding is installed; and after
the call each identity is bound to at most one connection: the new
identity maps to exactly the new socket in both directions and the socket
map never binds two sockets to one identity. -/
theorem authenticate_supersedes_prior_connection (st : WSState) (sid : Nat)
    (u : String) (info : UserInfo) (meta : List (String × String)) (now : Nat)
    (hreach : Reachable st)
    (hcu : getA u st.connectedUsers = some info)
    (halive : info.socketId ∈ st.alive)
    (hne : info.socketId ≠ sid)
    (hu : u.isEmpty = false) :
    WSEvent.forcedDisconnect info.socketId ∈
      (handleAuthentication sid (some u) meta now st).2 ∧
    getA info.socketId
        (handleAuthentication sid (some u) meta now st).1.userSockets = none ∧
    getA u (handleAuthentication sid (some u) meta now st).1.connectedUsers =
      some ⟨sid, ⟨meta, now, now⟩⟩ ∧
    getA sid (handleAuthentication sid (some u) meta now st).1.userSockets =
      some u ∧
    (∀ v s₁ s₂,
      getA s₁ (handleAuthentication sid (some u) meta now st).1.userSockets =
        some v →
      getA s₂ (handleAuthentication sid (some u) meta now st).1.userSockets =
        some v →
      s₁ = s₂) := by
  have hsc := (reachable_inv st hreach).1
  have heq : handleAuthentication sid (some u) meta now st =
      authInstall sid u meta now st := by
    unfold handleAuthentication
    simp only []
    rw [if_neg (by simp [hu])]
  rw [heq]
  have hrem : removeUserFromPreviousSocket u st =
      ({ (handleDisconnection info.socketId st).1 with
         userSockets :=
           delA info.socketId
             (handleDisconnection info.socketId st).1.userSockets },
       WSEvent.forcedDisconnect info.socketId ::
         (handleDisconnection info.socketId st).2) := by
    unfold removeUserFromPreviousSocket
    simp only [hcu]
    rw [if_pos halive]
  refine ⟨?_, ?_, ?_, ?_, ?_⟩
  · show WSEvent.forcedDisconnect info.socketId ∈
      (removeUserFromPreviousSocket u st).2 ++ _
    apply List.mem_append_left
    rw [hrem]
    exact List.mem_cons_self _ _
  · show getA info.socketId
      (setA sid u (removeUserFromPreviousSocket u st).1.userSockets) = none
    rw [getA_setA_ne _ _ hne, hrem]
    show getA info.socketId
      (delA info.socketId (handleDisconnection info.socketId st).1.userSockets)
      = none
    rw [delA, getA_eraseA_self]
  · exact getA_setA_self _ _ _
  · exact getA_setA_self _ _ _
  · exact sc_unique (sc_authInstall sid u meta now st hsc)

theorem authenticate_supersedes_prior_connection_witness :
    getA "alice" demoTwo.connectedUsers = some ⟨1, ⟨[], 5, 5⟩⟩ ∧
    1 ∈ demoTwo.alive ∧
    WSEvent.forcedDisconnect 1 ∈
      (handleAuthentication 2 (some "alice") [] 9 demoTwo).2 ∧
    getA 1 (handleAuthentication 2 (some "alice") [] 9 demoTwo).1.userSockets
      = none ∧
    getA "alice"
        (handleAuthentication 2 (some "alice") [] 9 demoTwo).1.connectedUsers
      = some ⟨2, ⟨[], 9, 9⟩⟩ ∧
    getA 2 (handleAuthentication 2 (some "alice") [] 9 demoTwo).1.userSockets
      = some "alice" := by
  have h := authenticate_supersedes_prior_connection demoTwo 2 "alice"
    ⟨1, ⟨[], 5, 5⟩⟩ [] 9 demoTwo_reachable (by decide) (by decide) (by decide)
    (by decide)
  exact ⟨by decide, by decide, h.1, h.2.1, h.2.2.1, h.2.2.2.1⟩

/-- Claim C10: a connection that is already authenticated as an identity
and authenticates again with that same identity is treated as its own
stale predecessor: the supersede logic forcibly disconnects that very
socket (the forced-disconnect is emitted and the socket leaves the live
set) even though the fresh binding is then installed on it. -/
theorem reauth_same_identity_closes_own_connection (st : WSState) (sid : Nat)
    (u : String) (info : UserInfo) (meta : List (String × String)) (now : Nat)
    (hreach : Reachable st)
    (hcu : getA u st.connectedUsers = some info)
    (hsid : info.socketId = sid)
    (halive : sid ∈ st.alive)
    (hu : u.isEmpty = false) :
    WSEvent.forcedDisconnect sid ∈
      (handleAuthentication sid (some u) meta now st).2 ∧
    sid ∉ (handleAuthentication sid (some u) meta now st).1.alive ∧
    getA u (handleAuthentication sid (some u) meta now st).1.connectedUsers =
      some ⟨sid, ⟨meta, now, now⟩⟩ := by
  have hnd := (reachable_inv st hreach).2.2.2
  have heq : handleAuthentication sid (some u) meta now st =
      authInstall sid u meta now st := by
    unfold handleAuthentication
    simp only []
    rw [if_neg (by simp [hu])]
  rw [heq]
  have hrem : removeUserFromPreviousSocket u st =
      ({ (handleDisconnection sid st).1 with
         userSockets := delA sid (handleDisconnection sid st).1.userSockets },
       WSEvent.forcedDisconnect sid :: (handleDisconnection sid st).2) := by
    unfold removeUserFromPreviousSocket
    simp only [hcu, hsid]
    rw [if_pos halive]
  have halive₂ : (handleDisconnection sid st).1.alive = st.alive.erase sid := by
    unfold handleDisconnection
    cases getA sid st.userSockets <;> rfl
  refine ⟨?_, ?_, ?_⟩
  · show WSEvent.forcedDisconnect sid ∈
      (removeUserFromPreviousSocket u st).2 ++ _
    apply List.mem_append_left
    rw [hrem]
    exact List.mem_cons_self _ _
  · show sid ∉ (removeUserFromPreviousSocket u st).1.alive
    rw [hrem]
    show sid ∉ (handleDisconnection sid st).1.alive
    rw [halive₂]
    exact hnd.not_mem_erase
  · exact getA_setA_self _ _ _

theorem reauth_same_identity_closes_own_connection_witness :
    getA "alice" demoAuthed.connectedUsers = some ⟨1, ⟨[], 5, 5⟩⟩ ∧
    1 ∈ demoAuthed.alive ∧
    WSEvent.forcedDisconnect 1 ∈
      (handleAuthentication 1 (some "alice") [] 9 demoAuthed).2 ∧
    1 ∉ (handleAuthentication 1 (some "alice") [] 9 demoAuthed).1.alive := by
  have h := reauth_same_identity_closes_own_connection demoAuthed 1 "alice"
    ⟨1, ⟨[], 5, 5⟩⟩ [] 9 demoAuthed_reachable (by decide) (by decide)
    (by decide) (by decide)
  exact ⟨by decide, by decide, h.1, h.2.1⟩

/-- The leading meme returned by the ordered query is one of the rows. -/
theorem topByUpvotes_mem {l : List Meme} {m : Meme}
    (h : topByUpvotes l = some m) : m ∈ l := by
  induction l with
  | nil => simp [topByUpvotes] at h
  | cons a rest ih =>
    simp only [topByUpvotes] at h
    revert h
    cases ht : topByUpvotes rest with
    | none =>
      intro h
      injection h with h
      subst h
      exact List.mem_cons_self _ _
    | some b =>
      intro h
      simp only [] at h
      by_cases hb : b.upvote_count > a.upvote_count
      · rw [if_pos hb] at h
        injection h with h
        subst h
        exact List.mem_cons_of_mem _ (ih ht)
      · rw [if_neg hb] at h
        injection h with h
        subst h
        exact List.mem_cons_self _ _

/-- A row whose upvote count strictly dominates every other row is the
leading element of the ordered query. -/
theorem topByUpvotes_strictmax {l : List Meme} {M : Meme} (hM : M ∈ l)
    (hmax : ∀ N ∈ l, N ≠ M → N.upvote_count < M.upvote_count) :
    topByUpvotes l = some M := by
  induction l with
  | nil => simp at hM
  | cons a rest ih =>
    by_cases ha : a = M
    · subst ha
      cases ht : topByUpvotes rest with
      | none => simp only [topByUpvotes, ht]
      | some b =>
        simp only [topByUpvotes, ht]
        have hb : b ∈ rest := topByUpvotes_mem ht
        by_cases hba : b = a
        · subst hba
          simp
        · have hlt := hmax b (List.mem_cons_of_mem _ hb) hba
          rw [if_neg (by omega)]
    · have hM₂ : M ∈ rest := by
        rcases List.mem_cons.mp hM with h | h
        · exact absurd h.symm ha
        · exact h
      have hmax₂ : ∀ N ∈ rest, N ≠ M → N.upvote_count < M.upvote_count :=
        fun N hN => hmax N (List.mem_cons_of_mem _ hN)
      have ht := ih hM₂ hmax₂
      simp only [topByUpvotes, ht]
      have haM : a.upvote_count < M.upvote_count :=
        hmax a (List.mem_cons_self _ _) ha
      rw [if_pos haM]

/-- Claim C9: assuming the voted meme strictly leads the upvote counts of
every other meme updated in the trailing ten-minute window, the
`meme_highlight` broadcast fires exactly when its upvote count is a
positive multiple of ten, and a vote on any other meme id broadcasts
nothing. -/
theorem trending_highlight_iff_top_multiple_of_ten (db : List Meme)
    (now : Nat) (M : Meme) (hM : M ∈ db)
    (hwin : now - 10 * 60 * 1000 ≤ M.updated_at)
    (htop : ∀ N ∈ db, now - 10 * 60 * 1000 ≤ N.updated_at → N ≠ M →
      N.upvote_count < M.upvote_count) :
    (0 < M.upvote_count ∧ M.upvote_count % 10 = 0 →
      checkAndBroadcastTrendingMeme db now M.id = some (M.id, M.upvote_count)) ∧
    (¬(0 < M.upvote_count ∧ M.upvote_count % 10 = 0) →
      checkAndBroadcastTrendingMeme db now M.id = none) ∧
    (∀ otherId, otherId ≠ M.id →
      checkAndBroadcastTrendingMeme db now otherId = none) := by
  have hMrec : M ∈ recentMemes db (now - 10 * 60 * 1000) := by
    simp only [recentMemes, List.mem_filter]
    exact ⟨hM, by simpa using hwin⟩
  have hmaxrec : ∀ N ∈ recentMemes db (now - 10 * 60 * 1000), N ≠ M →
      N.upvote_count < M.upvote_count := by
    intro N hN hne
    have hN₂ := List.mem_filter.mp hN
    exact htop N hN₂.1 (by simpa using hN₂.2) hne
  have htop₂ : topByUpvotes (recentMemes db (now - 10 * 60 * 1000)) = some M :=
    topByUpvotes_strictmax hMrec hmaxrec
  refine ⟨?_, ?_, ?_⟩
  · intro hc
    unfold checkAndBroadcastTrendingMeme
    simp only [htop₂]
    rw [if_pos trivial, if_pos hc]
  · intro hc
    unfold checkAndBroadcastTrendingMeme
    simp only [htop₂]
    rw [if_pos trivial, if_neg hc]
  · intro otherId hne
    unfold checkAndBroadcastTrendingMeme
    simp only [htop₂]
    rw [if_neg (fun h => hne h.symm)]

/-- Two memes updated at time 100: meme 1 leads with ten upvotes. -/
def demoMemes : List Meme := [⟨1, 10, 100⟩, ⟨2, 3, 100⟩]

theorem trending_highlight_iff_top_multiple_of_ten_witness :
    (⟨1, 10, 100⟩ : Meme) ∈ demoMemes ∧
    checkAndBroadcastTrendingMeme demoMemes 50 1 = some (1, 10) ∧
    checkAndBroadcastTrendingMeme demoMemes 50 2 = none := by
  have h := trending_highlight_iff_top_multiple_of_ten demoMemes 50
    ⟨1, 10, 100⟩ (by decide) (by decide) (by decide)
  exact ⟨by decide, h.1 (by decide), h.2.2 2 (by decide)⟩
